import Mathlib

/-!
Verification of the evidence-navigator worker (src/worker/index.js).

The JavaScript source is shallowly embedded: strings are `String`/`List Char`,
JS `Map`s become association lists or functions to `Option`, `Date.now()`
timestamps become `Nat` parameters, and each regex of the source is translated
into an executable scanning function over `List Char` (a regex `test` holds iff
a match starts at some position of the text).  `String.prototype.toLowerCase`
is modelled by ASCII lowercasing (`Char.toLower`); every pattern of the source
is ASCII or Japanese, so case only matters on ASCII letters.
-/

/-! ## Characters and scanning -/

/-- The characters of the JS `\s` class (as used by the regexes of the source). -/
def wsChars : List Char :=
  [' ', '\t', '\n', '\x0B', '\x0C', '\r', ' ', ' ',
   ' ', ' ', ' ', ' ', ' ', ' ', ' ',
   ' ', ' ', ' ', ' ', ' ', ' ', ' ',
   ' ', '　', '﻿']

/-- JS `\w`: ASCII letters, digits and underscore. -/
def wordCharB (c : Char) : Bool := c.isAlpha || c.isDigit || c == '_'

/-- `startsWithL s pat`: the pattern is a prefix of the text `s`. -/
def startsWithL : List Char → List Char → Bool
  | _, [] => true
  | [], _ :: _ => false
  | c :: s, p :: ps => c == p && startsWithL s ps

/-- A match of `p` starts at some suffix position of the text
(the model of `regex.test`). -/
def scanHas (p : List Char → Bool) : List Char → Bool
  | [] => p []
  | c :: rest => p (c :: rest) || scanHas p rest

/-- A literal pattern occurs somewhere in the text. -/
def hasLit (pat s : List Char) : Bool := scanHas (fun suf => startsWithL suf pat) s

/-- Some literal alternative of the regex occurs in the text. -/
def anyLitS (pats : List String) (s : List Char) : Bool :=
  pats.any (fun p => hasLit p.data s)

/-- The pattern `pre[\s-]?post` occurs in the text. -/
def optClass (pre post : String) (s : List Char) : Bool :=
  hasLit (pre.data ++ post.data) s ||
    ('-' :: wsChars).any (fun c => hasLit (pre.data ++ c :: post.data) s)

/-- A match of `rct\b` starts here. -/
def rctAt : List Char → Bool
  | 'r' :: 'c' :: 't' :: rest =>
    match rest with
    | [] => true
    | c :: _ => !(wordCharB c)
  | _ => false

/-- JS `.` (no `s` flag): any character but a line terminator. -/
def notLineTermB (c : Char) : Bool :=
  !(c == '\n' || c == '\r' || c == ' ' || c == ' ')

/-- `gapThenLit post n s`: at most `n` non-line-terminator characters,
then the literal `post`, starting at the head of `s`. -/
def gapThenLit (post : List Char) : Nat → List Char → Bool
  | 0, s => startsWithL s post
  | n + 1, s =>
    startsWithL s post ||
      match s with
      | [] => false
      | c :: rest => notLineTermB c && gapThenLit post n rest

/-- A match of `要因.{0,4}検討` starts here. -/
def yoinAt (s : List Char) : Bool :=
  startsWithL s "要因".data && gapThenLit "検討".data 4 (s.drop 2)

/-- ASCII lowercasing of a character list (model of `toLowerCase`). -/
def jsToLower (s : List Char) : List Char := s.map Char.toLower

/-- ASCII lowercasing of a string. -/
def lowerStr (s : String) : String := String.mk (s.data.map Char.toLower)

/-! ## Evidence levels and the title classifier (src/worker/index.js:934-965) -/

inductive EvidenceLevel where
  | guideline
  | sr_ma
  | rct
  | clinical_trial
  | observational
  | case_report
  | review
  | other
  deriving DecidableEq, Repr

/-- Line 938 of the source: the guideline regex on the lowercased title. -/
def tierTest1 (title : List Char) : Bool :=
  anyLitS ["ガイドライン", "guideline", "推奨グレード", "clinical recommendation",
           "practice parameter", "consensus statement"] (jsToLower title)

/-- Line 940: SR / meta-analysis regex on the lowercased title. -/
def tierTest2 (title : List Char) : Bool :=
  anyLitS ["システマティック", "systematic", "メタアナリシス", "メタ分析",
           "umbrella review", "scoping review"] (jsToLower title) ||
    optClass "meta" "analysis" (jsToLower title)

/-- Line 942: RCT regex (`無作為化?比較` expands to its two alternatives,
`rct\b` is the boundary matcher) on the lowercased title. -/
def tierTest3 (title : List Char) : Bool :=
  anyLitS ["ランダム化", "randomiz", "無作為化比較", "無作為比較",
           "controlled trial"] (jsToLower title) ||
    scanHas rctAt (jsToLower title)

/-- Line 944: clinical-trial regex on the lowercased title. -/
def tierTest4 (title : List Char) : Bool :=
  anyLitS ["臨床試験", "clinical trial", "介入研究", "intervention study",
           "pilot study", "パイロット", "feasibility"] (jsToLower title)

/-- Line 946: observational regex on the lowercased title. -/
def tierTest5 (title : List Char) : Bool :=
  anyLitS ["コホート", "cohort", "観察研究", "横断研究", "前向き", "後ろ向き",
           "retrospectiv", "prospectiv", "追跡調査", "縦断", "longitudinal",
           "症例対照", "レジストリ", "registry", "epidemiolog", "prevalence",
           "有病率", "incidence", "発生率", "アンケート", "survey", "質問紙"]
      (jsToLower title) ||
    optClass "cross" "sectional" (jsToLower title) ||
    optClass "case" "control" (jsToLower title)

/-- Line 948: case report / series regex on the lowercased title. -/
def tierTest6 (title : List Char) : Bool :=
  anyLitS ["症例報告", "case report", "症例検討", "case series", "一例", "1例",
           "一症例", "経験例"] (jsToLower title)

/-- Line 950: review regex on the lowercased title. -/
def tierTest7 (title : List Char) : Bool :=
  anyLitS ["レビュー", "review", "総説", "文献的考察", "文献検討", "overview",
           "narrative"] (jsToLower title)

/-- Line 952: Japanese study/investigation patterns (first group), raw title. -/
def tierTest8 (title : List Char) : Bool :=
  anyLitS ["についての検討", "に関する検討", "の検討", "因子の検討", "発生要因"] title ||
    scanHas yoinAt title

/-- Line 953: Japanese study/investigation patterns (second group), raw title. -/
def tierTest9 (title : List Char) : Bool :=
  anyLitS ["に関する研究", "に関する調査", "についての研究", "の実態調査", "の実態"] title

/-- Line 954: Japanese study/investigation patterns (third group), raw title. -/
def tierTest10 (title : List Char) : Bool :=
  anyLitS ["解析", "分析した", "を分析", "多変量", "回帰", "統計"] title

/-- Line 956: Japanese review/overview patterns (first group), raw title. -/
def tierTest11 (title : List Char) : Bool :=
  anyLitS ["の現状と課題", "現状と展望", "の動向", "の概要", "の概説", "の紹介",
           "の基礎と応用", "最新の", "特集"] title

/-- Line 957: Japanese review/overview patterns (second group), raw title. -/
def tierTest12 (title : List Char) : Bool :=
  anyLitS ["考え方と実際", "の実際"] title

/-- Line 959: Japanese report patterns, raw title. -/
def tierTest13 (title : List Char) : Bool :=
  anyLitS ["の報告", "について報告", "を報告", "を経験"] title

/-- Line 961: effect/efficacy patterns on the lowercased title. -/
def tierTest14 (title : List Char) : Bool :=
  anyLitS ["効果", "有効性", "efficacy", "effectiveness", "比較検討", "comparison",
           "治療成績", "outcome"] (jsToLower title)

/-- Line 963: Japanese 影響/予後 patterns, raw title. -/
def tierTest15 (title : List Char) : Bool :=
  anyLitS ["影響", "予後", "関連", "関与", "相関", "関係"] title

/-- The cascade of `classifyByTitle`, in the fixed source order. -/
def tierTests : List ((List Char → Bool) × EvidenceLevel) :=
  [(tierTest1, .guideline), (tierTest2, .sr_ma), (tierTest3, .rct),
   (tierTest4, .clinical_trial), (tierTest5, .observational),
   (tierTest6, .case_report), (tierTest7, .review),
   (tierTest8, .observational), (tierTest9, .observational),
   (tierTest10, .observational), (tierTest11, .review), (tierTest12, .review),
   (tierTest13, .case_report), (tierTest14, .clinical_trial),
   (tierTest15, .observational)]

/-- First matching test of a cascade, with its position. -/
def runCascade (title : List Char) :
    List ((List Char → Bool) × EvidenceLevel) → Option (Nat × EvidenceLevel)
  | [] => none
  | (f, l) :: rest =>
    if f title then some (0, l)
    else (runCascade title rest).map (fun p => (p.1 + 1, p.2))

/-- `classifyByTitle` (src/worker/index.js:934-965): first match of the
cascade wins, `other` on fallthrough. -/
def classifyByTitle (title : List Char) : EvidenceLevel :=
  match runCascade title tierTests with
  | some p => p.2
  | none => .other

/-- The position of the first matching test (15 = fallthrough to `other`). -/
def tierIdx (title : List Char) : Nat :=
  match runCascade title tierTests with
  | some p => p.1
  | none => 15

/-- `matchesTier k s`: the text `s` matches the `k`-th test of the cascade. -/
def matchesTier : Nat → List Char → Bool
  | 0, s => tierTest1 s
  | 1, s => tierTest2 s
  | 2, s => tierTest3 s
  | 3, s => tierTest4 s
  | 4, s => tierTest5 s
  | 5, s => tierTest6 s
  | 6, s => tierTest7 s
  | 7, s => tierTest8 s
  | 8, s => tierTest9 s
  | 9, s => tierTest10 s
  | 10, s => tierTest11 s
  | 11, s => tierTest12 s
  | 12, s => tierTest13 s
  | 13, s => tierTest14 s
  | 14, s => tierTest15 s
  | _ + 15, _ => false

def allLevels : List EvidenceLevel :=
  [.guideline, .sr_ma, .rct, .clinical_trial, .observational, .case_report,
   .review, .other]

/-! ## Records and the reconciler (src/worker/index.js:967-1042)

`year`, `citations`, `foundIn` and `language` are `Option`s: `none` models a
JS field that is `null`/`undefined`.  JS truthiness tests on these fields are
modelled explicitly (`0`, `""` and `none` are falsy). -/

structure Record where
  id : String
  title : String
  authors : List String
  journal : String
  year : Option Nat
  pubTypes : List String
  evidenceLevel : EvidenceLevel
  doi : String
  url : String
  source : String
  foundIn : Option (List String)
  citations : Option Nat
  language : Option String
  deriving DecidableEq, Repr

/-- A character kept by `normalizeTitle`: the regex removes everything
outside `\w`, `\s`, `　-鿿` and `＀-￯`. -/
def keepChar (c : Char) : Bool :=
  wordCharB c || wsChars.contains c ||
    (0x3000 ≤ c.toNat && c.toNat ≤ 0x9FFF) ||
    (0xFF00 ≤ c.toNat && c.toNat ≤ 0xFFEF)

/-- `replace(/\s+/g, ' ')`: each maximal whitespace run becomes one space.
The flag records whether the previous character was whitespace. -/
def collapseWsAux : Bool → List Char → List Char
  | _, [] => []
  | prevWs, c :: rest =>
    if wsChars.contains c then
      (if prevWs then [] else [' ']) ++ collapseWsAux true rest
    else c :: collapseWsAux false rest

/-- `trim()` over the JS whitespace class. -/
def trimWs (s : List Char) : List Char :=
  ((s.dropWhile (fun c => wsChars.contains c)).reverse.dropWhile
    (fun c => wsChars.contains c)).reverse

/-- `normalizeTitle` (src/worker/index.js:969-975): lowercase, drop the
characters outside word/space/CJK ranges, collapse whitespace, trim. -/
def normalizeTitle (title : String) : List Char :=
  trimWs (collapseWsAux false ((title.data.map Char.toLower).filter keepChar))

/-- `replace(/^https?:\/\/doi\.org\//, '')` on the lowercased DOI. -/
def stripDoiPrefix (d : List Char) : List Char :=
  if startsWithL d "https://doi.org/".data then d.drop 16
  else if startsWithL d "http://doi.org/".data then d.drop 15
  else d

/-- `${r.year || '?'}`: a truthy year prints as a number, else `?`. -/
def yearKey : Option Nat → String
  | some n => if n ≠ 0 then toString n else "?"
  | none => "?"

/-- `dedupKey` (src/worker/index.js:977-982). -/
def dedupKey (r : Record) : String :=
  if r.doi ≠ "" then
    String.mk ("doi:".data ++ stripDoiPrefix (r.doi.data.map Char.toLower))
  else if (normalizeTitle r.title).length > 10 then
    String.mk ("t:".data ++ normalizeTitle r.title ++ ":".data ++
      (yearKey r.year).data)
  else
    String.mk ("id:".data ++ r.id.data)

/-- `EV_RANK` (src/worker/index.js:984-987). -/
def evRank : EvidenceLevel → Nat
  | .guideline => 0
  | .sr_ma => 1
  | .rct => 2
  | .clinical_trial => 3
  | .observational => 4
  | .case_report => 5
  | .review => 6
  | .other => 7

/-- `bestEvidence` (src/worker/index.js:989-991). -/
def bestEvidence (a b : EvidenceLevel) : EvidenceLevel :=
  if evRank a ≤ evRank b then a else b

/-- `x || 0` on an optional count. -/
def jsOrZero : Option Nat → Nat
  | none => 0
  | some n => n

/-- JS truthiness of an optional number (`0` and `null` are falsy). -/
def truthyYear : Option Nat → Bool
  | none => false
  | some n => n != 0

/-- JS truthiness of an optional string (`""` and `null` are falsy). -/
def truthyStr : Option String → Bool
  | none => false
  | some s => s != ""

/-- `a.includes(b)` on strings. -/
def hasSubStr (pat s : String) : Bool := hasLit pat.data s.data

/-- JS `Set` insertion: append if not already present. -/
def setAdd (l : List String) (x : String) : List String :=
  if x ∈ l then l else l ++ [x]

/-- `[...new Set(l)]`: deduplicate preserving first insertion. -/
def jsSetOf (l : List String) : List String := l.foldl setAdd []

/-- `mergeInto` (src/worker/index.js:993-1018), as a function from the two
records to the updated `existing` record. -/
def mergeInto (existing newer : Record) : Record :=
  let fi := existing.foundIn.getD [existing.source]
  { existing with
    evidenceLevel := bestEvidence existing.evidenceLevel newer.evidenceLevel
    citations := some (max (jsOrZero existing.citations) (jsOrZero newer.citations))
    doi := if existing.doi = "" ∧ newer.doi ≠ "" then newer.doi else existing.doi
    authors :=
      if newer.authors.length > existing.authors.length then newer.authors
      else existing.authors
    journal :=
      if existing.journal = "" ∧ newer.journal ≠ "" then newer.journal
      else existing.journal
    year :=
      if ¬ truthyYear existing.year = true ∧ truthyYear newer.year = true then newer.year
      else existing.year
    url :=
      if newer.url ≠ "" ∧ hasSubStr "pubmed.ncbi" newer.url = true ∧
          ¬ hasSubStr "pubmed.ncbi" existing.url = true then newer.url
      else existing.url
    pubTypes := jsSetOf (existing.pubTypes ++ newer.pubTypes)
    foundIn := some (if newer.source ∈ fi then fi else fi ++ [newer.source])
    language :=
      if ¬ truthyStr existing.language = true ∧ truthyStr newer.language = true then
        newer.language
      else existing.language }

/-- `sourceCounts` (src/worker/index.js:1022): the six external-source keys. -/
structure SourceCounts where
  pubmed : Nat
  jstage : Nat
  s2 : Nat
  openalex : Nat
  cinii : Nat
  epmc : Nat
  deriving DecidableEq, Repr

def zeroCounts : SourceCounts := ⟨0, 0, 0, 0, 0, 0⟩

/-- The `srcKey` ternary chain of src/worker/index.js:1032-1036: any source
other than the five named ones is credited to `cinii`. -/
def bumpSource (c : SourceCounts) (source : String) : SourceCounts :=
  if source = "PubMed" then { c with pubmed := c.pubmed + 1 }
  else if source = "J-STAGE" then { c with jstage := c.jstage + 1 }
  else if source = "Semantic Scholar" then { c with s2 := c.s2 + 1 }
  else if source = "OpenAlex" then { c with openalex := c.openalex + 1 }
  else if source = "Europe PMC" then { c with epmc := c.epmc + 1 }
  else { c with cinii := c.cinii + 1 }

def sumCounts (c : SourceCounts) : Nat :=
  c.pubmed + c.jstage + c.s2 + c.openalex + c.cinii + c.epmc

/-- `map.has(key)` over the association-list model of the dedup `Map`. -/
def hasEntry (m : List (String × Record)) (k : String) : Bool :=
  m.any (fun e => e.1 == k)

/-- `mergeInto(map.get(key), r)`: merge `r` into the entry stored at `k`. -/
def updateEntry : List (String × Record) → String → Record → List (String × Record)
  | [], _, _ => []
  | e :: rest, k, r =>
    (if e.1 = k then (e.1, mergeInto e.2 r) else e) :: updateEntry rest k r

/-- One iteration of the loop of `deduplicateAndMerge`
(src/worker/index.js:1024-1038). -/
def dedupStep (st : List (String × Record) × SourceCounts) (r : Record) :
    List (String × Record) × SourceCounts :=
  let key := dedupKey r
  if hasEntry st.1 key then (updateEntry st.1 key r, st.2)
  else (st.1 ++ [(key, { r with foundIn := some [r.source] })],
        bumpSource st.2 r.source)

/-- The dedup `Map` and counts after the whole loop. -/
def dedupFold (inputs : List Record) : List (String × Record) × SourceCounts :=
  inputs.foldl dedupStep ([], zeroCounts)

/-- `deduplicateAndMerge` (src/worker/index.js:1020-1042):
`[...map.values()]` and the source counts. -/
def deduplicateAndMerge (inputs : List Record) : List Record × SourceCounts :=
  ((dedupFold inputs).1.map (fun e => e.2), (dedupFold inputs).2)

/-- The pre-merge input records that collide on the dedup key `k`. -/
def colliders (k : String) (inputs : List Record) : List Record :=
  inputs.filter (fun r => dedupKey r == k)

/-- From the claim's words: the records that are the first to occupy their
dedup key, in input order (`seen` are the keys already occupied). -/
def firstOccAux (seen : List String) : List Record → List Record
  | [] => []
  | r :: rest =>
    if dedupKey r ∈ seen then firstOccAux seen rest
    else r :: firstOccAux (dedupKey r :: seen) rest

/-- From the claim's words: the first record to occupy each dedup key. -/
def firstOccupants (l : List Record) : List Record := firstOccAux [] l

/-- Count a list of records by source, starting from `c`. -/
def tallySources (l : List Record) (c : SourceCounts) : SourceCounts :=
  l.foldl (fun acc r => bumpSource acc r.source) c

/-! ## Language detection and translation (src/worker/index.js:578-594) -/

/-- The character class of the `isJapanese` regex:
`[　-鿿豈-﫿]`. -/
def jsJaChar (c : Char) : Bool :=
  decide ((0x3000 ≤ c.toNat ∧ c.toNat ≤ 0x9FFF) ∨
          (0xF900 ≤ c.toNat ∧ c.toNat ≤ 0xFAFF))

/-- `isJapanese` (src/worker/index.js:578-580). -/
def isJapanese (text : String) : Bool := text.data.any jsJaChar

/-- From the claim's words: the four named Japanese Unicode blocks
(CJK Unified Ideographs, Hiragana, Katakana, CJK Compatibility Ideographs). -/
def inNamedJapaneseBlock (c : Char) : Bool :=
  decide ((0x4E00 ≤ c.toNat ∧ c.toNat ≤ 0x9FFF) ∨
          (0x3040 ≤ c.toNat ∧ c.toNat ≤ 0x309F) ∨
          (0x30A0 ≤ c.toNat ∧ c.toNat ≤ 0x30FF) ∨
          (0xF900 ≤ c.toNat ∧ c.toNat ≤ 0xFAFF))

/-- The outcome of the `fetch` inside `translate`: `failure` is any network
error, timeout or unparseable body (everything the `catch` swallows);
`success fe` is a parsed body, where `fe` models `data?.[0]` and each
segment is represented by its first element `seg[0]`. -/
inductive FetchOutcome where
  | failure
  | success (firstElem : Option (List String))
  deriving DecidableEq, Repr

/-- `.map(seg => seg[0]).join('')`. -/
def concatSegs (segs : List String) : String := String.join segs

/-- The concatenated translation of an outcome (`''` when absent). -/
def concatOf : FetchOutcome → String
  | .failure => ""
  | .success fe => (fe.map concatSegs).getD ""

def isSuccess : FetchOutcome → Bool
  | .failure => false
  | .success _ => true

/-- `translate` (src/worker/index.js:582-594; named `translateText` here because Mathlib already has a root-level `translate`): the returned value as a
function of the input text and the upstream outcome; `none` models the JS
`null` sentinel. -/
def translateText (text : String) (o : FetchOutcome) : Option String :=
  match o with
  | .failure => none
  | .success fe =>
    let translated := (fe.map concatSegs).getD ""
    if translated = "" ∨ lowerStr translated = lowerStr text then none
    else some translated

/-! ## The synonym index (src/worker/index.js:360-423) -/

/-- `SYNONYMS` (src/worker/index.js:360-402), transcribed verbatim. -/
def SYNONYMS : List (List String) :=
  [["リハ", "リハビリ", "リハビリテーション", "rehabilitation"],
   ["PT", "理学療法", "physical therapy", "physiotherapy"],
   ["OT", "作業療法", "occupational therapy"],
   ["ST", "言語聴覚療法", "言語療法", "speech therapy"],
   ["OA", "変形性関節症", "osteoarthritis"],
   ["膝OA", "変形性膝関節症", "knee osteoarthritis"],
   ["股OA", "変形性股関節症", "hip osteoarthritis"],
   ["RA", "関節リウマチ", "rheumatoid arthritis"],
   ["脳卒中", "stroke", "脳梗塞", "脳出血", "CVA"],
   ["心筋梗塞", "MI", "AMI", "急性心筋梗塞", "myocardial infarction"],
   ["心不全", "HF", "heart failure", "HFrEF", "HFpEF"],
   ["COPD", "慢性閉塞性肺疾患"],
   ["DM", "糖尿病", "diabetes"],
   ["ALS", "筋萎縮性側索硬化症"],
   ["PD", "パーキンソン病", "Parkinson\x27s disease"],
   ["ACL", "前十字靱帯", "前十字靭帯", "anterior cruciate ligament"],
   ["TKA", "人工膝関節", "人工膝関節置換術"],
   ["THA", "人工股関節", "人工股関節置換術"],
   ["ICU", "集中治療", "intensive care"],
   ["BPPV", "良性発作性頭位めまい症"],
   ["MCI", "軽度認知障害", "mild cognitive impairment"],
   ["運動療法", "exercise therapy", "運動"],
   ["物理療法", "physical modalities", "物療"],
   ["徒手療法", "manual therapy", "徒手"],
   ["電気刺激", "NMES", "神経筋電気刺激", "electrical stimulation"],
   ["TENS", "経皮的電気神経刺激"],
   ["嚥下", "嚥下障害", "dysphagia", "嚥下訓練"],
   ["ADL", "日常生活動作", "activities of daily living"],
   ["QOL", "生活の質", "quality of life"],
   ["ROM", "関節可動域", "range of motion"],
   ["NSAIDs", "非ステロイド性抗炎症薬"],
   ["CRPS", "複合性局所疼痛症候群"],
   ["DVT", "深部静脈血栓症"],
   ["VTE", "静脈血栓塞栓症"],
   ["HAL", "ロボットスーツ"],
   ["FIM", "機能的自立度評価"],
   ["BI", "Barthel Index", "バーセルインデックス"]]

/-- Add all of `vs` to the set stored under `k` (creating the entry at the
end when `k` is absent), as the build loop of `SYN_MAP` does. -/
def addAllToKey : List (String × List String) → String → List String →
    List (String × List String)
  | [], k, vs => [(k, vs.foldl setAdd [])]
  | e :: rest, k, vs =>
    if e.1 = k then (k, vs.foldl setAdd e.2) :: rest
    else e :: addAllToKey rest k vs

/-- One group of the `SYN_MAP` build (src/worker/index.js:405-412): every
lowercased member of the group maps to the whole (original-case) group. -/
def addGroup (m : List (String × List String)) (group : List String) :
    List (String × List String) :=
  (group.map lowerStr).foldl (fun acc k => addAllToKey acc k group) m

/-- `SYN_MAP` (src/worker/index.js:404-412). -/
def SYN_MAP : List (String × List String) := SYNONYMS.foldl addGroup []

/-- `SYN_MAP.get(k)` (first entry with the key). -/
def getSyn : List (String × List String) → String → Option (List String)
  | [], _ => none
  | e :: rest, k => if e.1 = k then some e.2 else getSyn rest k

/-- The synonym-class members of a term: the `SYN_MAP` entry of its
lowercasing, empty when absent. -/
def synClassOf (t : String) : List String := (getSyn SYN_MAP (lowerStr t)).getD []

/-- The loop body of `expandSynonyms` for one input term. -/
def expandStep (acc : List String) (term : String) : List String :=
  match getSyn SYN_MAP (lowerStr term) with
  | some syns => syns.foldl setAdd acc
  | none => acc

/-- `expandSynonyms` (src/worker/index.js:414-423): a JS `Set` seeded with
the input terms, then each term's class members added; returned in
insertion order. -/
def expandSynonyms (terms : List String) : List String :=
  terms.foldl expandStep (jsSetOf terms)

/-! ## The rate limiter (src/worker/index.js:32-74)

The JS `Map` from IP to `{start, count}` is modelled as a function to
`Option`; the only iteration over it (the cleanup sweep) is pointwise, so
no ordering is lost.  `Date.now()` becomes an explicit `now : Nat`. -/

structure RLEntry where
  start : Nat
  count : Nat
  deriving DecidableEq, Repr

def RATE_LIMIT : Nat := 60
def RATE_WINDOW : Nat := 60000

def RLTable := String → Option RLEntry

/-- The cleanup sweep: drop entries whose window has fully elapsed. -/
def cleanupTable (now : Nat) (t : RLTable) : RLTable := fun ip =>
  match t ip with
  | some e => if RATE_WINDOW < now - e.start then none else some e
  | none => none

def setEntry (t : RLTable) (ip : String) (e : RLEntry) : RLTable :=
  fun k => if k = ip then some e else t k

structure RLState where
  table : RLTable
  lastCleanup : Nat

/-- `checkRateLimit` (src/worker/index.js:39-56): the updated state and the
returned boolean. -/
def checkRateLimit (s : RLState) (now : Nat) (ip : String) : RLState × Bool :=
  let s1 : RLState :=
    if RATE_WINDOW < now - s.lastCleanup then ⟨cleanupTable now s.table, now⟩
    else s
  match s1.table ip with
  | none => (⟨setEntry s1.table ip ⟨now, 1⟩, s1.lastCleanup⟩, true)
  | some e =>
    if RATE_WINDOW < now - e.start then
      (⟨setEntry s1.table ip ⟨now, 1⟩, s1.lastCleanup⟩, true)
    else
      (⟨setEntry s1.table ip ⟨e.start, e.count + 1⟩, s1.lastCleanup⟩,
       if RATE_LIMIT < e.count + 1 then false else true)

/-- The rate-limit gate of the fetch handler (src/worker/index.js:67-74):
`some 429` is the early `429` response, `none` means the request proceeds. -/
def rateLimitGate (s : RLState) (now : Nat) (ip : String) : RLState × Option Nat :=
  let r := checkRateLimit s now ip
  (r.1, if r.2 then none else some 429)

/-- A sequence of `checkRateLimit` calls, each given by its `Date.now()`
time and IP; returns the list of returned booleans. -/
def runCalls (s : RLState) : List (Nat × String) → List Bool
  | [] => []
  | c :: rest =>
    let r := checkRateLimit s c.1 c.2
    r.2 :: runCalls r.1 rest

set_option maxRecDepth 100000

/-! ## Matches are preserved when text is prepended -/

theorem scanHas_append (p : List Char → Bool) (t s : List Char)
    (h : scanHas p s = true) : scanHas p (t ++ s) = true := by
  induction t with
  | nil => simpa using h
  | cons c t ih => simp [scanHas, ih]

theorem hasLit_append (pat t s : List Char) (h : hasLit pat s = true) :
    hasLit pat (t ++ s) = true := scanHas_append _ t s h

theorem anyLitS_append (pats : List String) (t s : List Char)
    (h : anyLitS pats s = true) : anyLitS pats (t ++ s) = true := by
  simp only [anyLitS, List.any_eq_true] at h ⊢
  obtain ⟨p, hp, hl⟩ := h
  exact ⟨p, hp, hasLit_append _ t s hl⟩

theorem optClass_append (pre post : String) (t s : List Char)
    (h : optClass pre post s = true) : optClass pre post (t ++ s) = true := by
  simp only [optClass, Bool.or_eq_true, List.any_eq_true] at h ⊢
  rcases h with h | ⟨c, hc, hl⟩
  · exact Or.inl (hasLit_append _ t s h)
  · exact Or.inr ⟨c, hc, hasLit_append _ t s hl⟩

theorem jsToLower_append (t s : List Char) :
    jsToLower (t ++ s) = jsToLower t ++ jsToLower s := by
  simp [jsToLower]

theorem tierTest1_append (t s : List Char) (h : tierTest1 s = true) :
    tierTest1 (t ++ s) = true := by
  unfold tierTest1 at h ⊢
  rw [jsToLower_append]
  exact anyLitS_append _ _ _ h

theorem tierTest2_append (t s : List Char) (h : tierTest2 s = true) :
    tierTest2 (t ++ s) = true := by
  unfold tierTest2 at h ⊢
  rw [jsToLower_append]
  simp only [Bool.or_eq_true] at h ⊢
  rcases h with h | h
  · exact Or.inl (anyLitS_append _ _ _ h)
  · exact Or.inr (optClass_append _ _ _ _ h)

theorem tierTest3_append (t s : List Char) (h : tierTest3 s = true) :
    tierTest3 (t ++ s) = true := by
  unfold tierTest3 at h ⊢
  rw [jsToLower_append]
  simp only [Bool.or_eq_true] at h ⊢
  rcases h with h | h
  · exact Or.inl (anyLitS_append _ _ _ h)
  · exact Or.inr (scanHas_append _ _ _ h)

theorem tierTest4_append (t s : List Char) (h : tierTest4 s = true) :
    tierTest4 (t ++ s) = true := by
  unfold tierTest4 at h ⊢
  rw [jsToLower_append]
  exact anyLitS_append _ _ _ h

theorem tierTest5_append (t s : List Char) (h : tierTest5 s = true) :
    tierTest5 (t ++ s) = true := by
  unfold tierTest5 at h ⊢
  rw [jsToLower_append]
  simp only [Bool.or_eq_true] at h ⊢
  rcases h with (h | h) | h
  · exact Or.inl (Or.inl (anyLitS_append _ _ _ h))
  · exact Or.inl (Or.inr (optClass_append _ _ _ _ h))
  · exact Or.inr (optClass_append _ _ _ _ h)

theorem tierTest6_append (t s : List Char) (h : tierTest6 s = true) :
    tierTest6 (t ++ s) = true := by
  unfold tierTest6 at h ⊢
  rw [jsToLower_append]
  exact anyLitS_append _ _ _ h

theorem tierTest7_append (t s : List Char) (h : tierTest7 s = true) :
    tierTest7 (t ++ s) = true := by
  unfold tierTest7 at h ⊢
  rw [jsToLower_append]
  exact anyLitS_append _ _ _ h

theorem tierTest8_append (t s : List Char) (h : tierTest8 s = true) :
    tierTest8 (t ++ s) = true := by
  unfold tierTest8 at h ⊢
  simp only [Bool.or_eq_true] at h ⊢
  rcases h with h | h
  · exact Or.inl (anyLitS_append _ _ _ h)
  · exact Or.inr (scanHas_append _ _ _ h)

theorem tierTest9_append (t s : List Char) (h : tierTest9 s = true) :
    tierTest9 (t ++ s) = true := anyLitS_append _ t s h

theorem tierTest10_append (t s : List Char) (h : tierTest10 s = true) :
    tierTest10 (t ++ s) = true := anyLitS_append _ t s h

theorem tierTest11_append (t s : List Char) (h : tierTest11 s = true) :
    tierTest11 (t ++ s) = true := anyLitS_append _ t s h

theorem tierTest12_append (t s : List Char) (h : tierTest12 s = true) :
    tierTest12 (t ++ s) = true := anyLitS_append _ t s h

theorem tierTest13_append (t s : List Char) (h : tierTest13 s = true) :
    tierTest13 (t ++ s) = true := anyLitS_append _ t s h

theorem tierTest14_append (t s : List Char) (h : tierTest14 s = true) :
    tierTest14 (t ++ s) = true := by
  unfold tierTest14 at h ⊢
  rw [jsToLower_append]
  exact anyLitS_append _ _ _ h

theorem tierTest15_append (t s : List Char) (h : tierTest15 s = true) :
    tierTest15 (t ++ s) = true := anyLitS_append _ t s h

theorem matchesTier_append (k : Nat) (t s : List Char)
    (h : matchesTier k s = true) : matchesTier k (t ++ s) = true := by
  match k with
  | 0 => exact tierTest1_append t s h
  | 1 => exact tierTest2_append t s h
  | 2 => exact tierTest3_append t s h
  | 3 => exact tierTest4_append t s h
  | 4 => exact tierTest5_append t s h
  | 5 => exact tierTest6_append t s h
  | 6 => exact tierTest7_append t s h
  | 7 => exact tierTest8_append t s h
  | 8 => exact tierTest9_append t s h
  | 9 => exact tierTest10_append t s h
  | 10 => exact tierTest11_append t s h
  | 11 => exact tierTest12_append t s h
  | 12 => exact tierTest13_append t s h
  | 13 => exact tierTest14_append t s h
  | 14 => exact tierTest15_append t s h
  | n + 15 => simp [matchesTier] at h

/-! ## The cascade takes the first matching test -/

theorem runCascade_le (title : List Char) :
    ∀ (L : List ((List Char → Bool) × EvidenceLevel)) (k : Nat)
      (f : List Char → Bool) (l : EvidenceLevel),
      L.get? k = some (f, l) → f title = true →
      ∃ p : Nat × EvidenceLevel, runCascade title L = some p ∧ p.1 ≤ k := by
  intro L
  induction L with
  | nil => intro k f l hget _; simp [List.get?] at hget
  | cons e rest ih =>
    intro k f l hget hf
    obtain ⟨f0, l0⟩ := e
    by_cases h0 : f0 title = true
    · exact ⟨(0, l0), by simp [runCascade, h0], Nat.zero_le k⟩
    · match k with
      | 0 =>
        simp only [List.get?, Option.some.injEq, Prod.mk.injEq] at hget
        exact absurd (hget.1 ▸ hf) h0
      | k + 1 =>
        obtain ⟨p, hp, hle⟩ := ih k f l (by simpa [List.get?] using hget) hf
        exact ⟨(p.1 + 1, p.2), by simp [runCascade, h0, hp], Nat.succ_le_succ hle⟩

theorem matchesTier_le (k : Nat) (x : List Char) (h : matchesTier k x = true) :
    tierIdx x ≤ k := by
  have hx : ∃ p : Nat × EvidenceLevel,
      runCascade x tierTests = some p ∧ p.1 ≤ k := by
    match k with
    | 0 => exact runCascade_le x tierTests 0 tierTest1 .guideline rfl h
    | 1 => exact runCascade_le x tierTests 1 tierTest2 .sr_ma rfl h
    | 2 => exact runCascade_le x tierTests 2 tierTest3 .rct rfl h
    | 3 => exact runCascade_le x tierTests 3 tierTest4 .clinical_trial rfl h
    | 4 => exact runCascade_le x tierTests 4 tierTest5 .observational rfl h
    | 5 => exact runCascade_le x tierTests 5 tierTest6 .case_report rfl h
    | 6 => exact runCascade_le x tierTests 6 tierTest7 .review rfl h
    | 7 => exact runCascade_le x tierTests 7 tierTest8 .observational rfl h
    | 8 => exact runCascade_le x tierTests 8 tierTest9 .observational rfl h
    | 9 => exact runCascade_le x tierTests 9 tierTest10 .observational rfl h
    | 10 => exact runCascade_le x tierTests 10 tierTest11 .review rfl h
    | 11 => exact runCascade_le x tierTests 11 tierTest12 .review rfl h
    | 12 => exact runCascade_le x tierTests 12 tierTest13 .case_report rfl h
    | 13 => exact runCascade_le x tierTests 13 tierTest14 .clinical_trial rfl h
    | 14 => exact runCascade_le x tierTests 14 tierTest15 .observational rfl h
    | n + 15 => simp [matchesTier] at h
  obtain ⟨p, hp, hle⟩ := hx
  simpa [tierIdx, hp] using hle

/-- C4 (amended): `classifyByTitle` is total — every title yields one of the
eight evidence levels — and priority-ordered in the amended sense: when a
text `s` matches the tier-`k` test and the title's own first matching tier
lies strictly after `k`, the extended title `title ++ s` classifies at a tier
at most `k`.  (The claim's "shifts the classification to tier k" exactly is
refuted by `classifyByTitle_priority_cex`: an earlier tier can match the
extended title as well.) -/
theorem classifyByTitle_total_and_priority :
    (∀ title : List Char, classifyByTitle title ∈ allLevels) ∧
    (∀ (title s : List Char) (k : Nat), matchesTier k s = true →
      k < tierIdx title → tierIdx (title ++ s) ≤ k) := by
  constructor
  · intro title
    cases h : classifyByTitle title <;> simp [allLevels]
  · intro title s k hk _
    exact matchesTier_le k (title ++ s) (matchesTier_append k title s hk)

/-- Witness for C4: `"systematic"` matches the tier-1 (sr_ma) test,
`"case report of x"` first matches at tier 5, and the extended title
classifies at tier at most 1. -/
theorem classifyByTitle_priority_witness :
    matchesTier 1 "systematic".data = true ∧
      1 < tierIdx "case report of x".data ∧
      tierIdx ("case report of x".data ++ "systematic".data) ≤ 1 :=
  ⟨by decide, by decide,
    classifyByTitle_total_and_priority.2 "case report of x".data
      "systematic".data 1 (by decide) (by decide)⟩

/-- Counterexample to C4 as stated: `"systema"` matches no test (tier 15 =
fallthrough); the appended text `"tic review"` matches the tier-6 test,
whose output is `review`; but the extended title classifies as `sr_ma`
(tier 1), not `review` — appending a tier-k match does not land exactly on
tier k. -/
theorem classifyByTitle_priority_cex :
    tierIdx "systema".data = 15 ∧
      matchesTier 6 "tic review".data = true ∧
      (tierTests.map (fun e => e.2)).get? 6 = some EvidenceLevel.review ∧
      classifyByTitle ("systema".data ++ "tic review".data) =
        EvidenceLevel.sr_ma ∧
      EvidenceLevel.sr_ma ≠ EvidenceLevel.review := by
  decide

/-- C5: the Japanese title 「高齢者における転倒の危険因子の検討」 classifies
as `observational` via the first Japanese study/investigation group —
position 7 of the cascade, the spec's tier 8 — with no earlier test
matching. -/
theorem classify_japanese_title_s5 :
    classifyByTitle "高齢者における転倒の危険因子の検討".data =
      EvidenceLevel.observational ∧
    tierIdx "高齢者における転倒の危険因子の検討".data = 7 := by
  exact ⟨by decide, by decide⟩

/-- C7 (amended): `isJapanese` is true iff some code point of the text lies
in the regex's ranges U+3000-U+9FFF or U+F900-U+FAFF — ranges that strictly
include the four blocks the claim names.  A single such character suffices,
and a text with no such code point yields false. -/
theorem isJapanese_iff_ranges : ∀ text : String,
    isJapanese text = true ↔
      ∃ c ∈ text.data, (0x3000 ≤ c.toNat ∧ c.toNat ≤ 0x9FFF) ∨
        (0xF900 ≤ c.toNat ∧ c.toNat ≤ 0xFAFF) := by
  intro text
  simp [isJapanese, List.any_eq_true, jsJaChar]

/-- Counterexample to C7 as stated: the ideographic space U+3000 makes
`isJapanese` true, yet it lies in none of the four Japanese blocks the claim
names (CJK Unified Ideographs, Hiragana, Katakana, CJK Compatibility). -/
theorem isJapanese_cex :
    isJapanese "　" = true ∧
      ∀ c ∈ ("　" : String).data, inNamedJapaneseBlock c = false := by
  decide

/-- C8: `translate` never raises — for every input text and every upstream
outcome it returns the concatenated translation exactly when that
concatenation is non-empty and not case-insensitively identical to the
input (which requires a successfully parsed body), and the absent sentinel
`none` in every other case, including every failure. -/
theorem translate_total_spec : ∀ (text : String) (o : FetchOutcome),
    (translateText text o = some (concatOf o) ∧ isSuccess o = true ∧
      concatOf o ≠ "" ∧ lowerStr (concatOf o) ≠ lowerStr text) ∨
    (translateText text o = none ∧ (isSuccess o = false ∨ concatOf o = "" ∨
      lowerStr (concatOf o) = lowerStr text)) := by
  intro text o
  cases o with
  | failure => exact Or.inr ⟨rfl, Or.inl rfl⟩
  | success fe =>
    by_cases h1 : (fe.map concatSegs).getD "" = ""
    · refine Or.inr ⟨?_, Or.inr (Or.inl h1)⟩
      simp [translateText, h1]
    · by_cases h2 : lowerStr ((fe.map concatSegs).getD "") = lowerStr text
      · refine Or.inr ⟨?_, Or.inr (Or.inr h2)⟩
        simp [translateText, h2]
      · refine Or.inl ⟨?_, rfl, h1, h2⟩
        simp [translateText, concatOf, h1, h2]

/-- C10: merging a newer record into an existing one never changes the
existing record's `id`, `title` or `source`. -/
theorem mergeInto_frame : ∀ existing newer : Record,
    (mergeInto existing newer).id = existing.id ∧
    (mergeInto existing newer).title = existing.title ∧
    (mergeInto existing newer).source = existing.source := by
  intro e n
  exact ⟨rfl, rfl, rfl⟩

/-- C3 (amended): `dedupKey` is deterministic; two records with equal
non-empty lowercased DOIs get equal keys; and two records with no DOI,
equal normalized titles of length above 10 and equal years get equal keys.
(The claim's unqualified DOI clause and its title clause without the length
bound are refuted by `dedupKey_cex`: with empty DOIs and a short title the
key falls back to the record id.) -/
theorem dedupKey_deterministic_amended :
    (∀ r1 r2 : Record, r1 = r2 → dedupKey r1 = dedupKey r2) ∧
    (∀ r1 r2 : Record, r1.doi ≠ "" → r2.doi ≠ "" →
      lowerStr r1.doi = lowerStr r2.doi → dedupKey r1 = dedupKey r2) ∧
    (∀ r1 r2 : Record, r1.doi = "" → r2.doi = "" →
      normalizeTitle r1.title = normalizeTitle r2.title →
      10 < (normalizeTitle r1.title).length →
      r1.year = r2.year → dedupKey r1 = dedupKey r2) := by
  have key_doi : ∀ r : Record, r.doi ≠ "" → dedupKey r =
      String.mk ("doi:".data ++ stripDoiPrefix (r.doi.data.map Char.toLower)) := by
    intro r h
    unfold dedupKey
    rw [if_pos h]
  have key_title : ∀ r : Record, r.doi = "" →
      10 < (normalizeTitle r.title).length → dedupKey r =
      String.mk ("t:".data ++ normalizeTitle r.title ++ ":".data ++
        (yearKey r.year).data) := by
    intro r h hl
    have h2 : ¬(r.doi ≠ "") := fun hne => hne h
    unfold dedupKey
    rw [if_neg h2, if_pos hl]
  refine ⟨fun r1 r2 h => by rw [h], ?_, ?_⟩
  · intro r1 r2 h1 h2 hl
    have hd : r1.doi.data.map Char.toLower = r2.doi.data.map Char.toLower :=
      congrArg String.data hl
    rw [key_doi r1 h1, key_doi r2 h2, hd]
  · intro r1 r2 h1 h2 ht hlen hy
    rw [key_title r1 h1 hlen, key_title r2 h2 (ht ▸ hlen), ht, hy]

def dedupKeyCexA : Record :=
  Record.mk "x" "ab" [] "" none [] .other "" "" "PubMed" none none none

def dedupKeyCexB : Record :=
  Record.mk "y" "ab" [] "" none [] .other "" "" "PubMed" none none none

/-- Counterexample to C3 as stated: two records with equal (empty, hence
equal lowercased) DOIs, equal normalized titles and equal years, whose
normalized title is 10 characters or shorter, get different keys — the key
falls back to `id:<r.id>` and the ids differ. -/
theorem dedupKey_cex :
    dedupKeyCexA.doi = "" ∧ dedupKeyCexB.doi = "" ∧
      lowerStr dedupKeyCexA.doi = lowerStr dedupKeyCexB.doi ∧
      normalizeTitle dedupKeyCexA.title = normalizeTitle dedupKeyCexB.title ∧
      dedupKeyCexA.year = dedupKeyCexB.year ∧
      dedupKey dedupKeyCexA ≠ dedupKey dedupKeyCexB := by
  decide

def dedupKeyWitA : Record :=
  Record.mk "a" "" [] "" none [] .other "10.1/ABC" "" "PubMed" none none none

def dedupKeyWitB : Record :=
  Record.mk "b" "" [] "" none [] .other "10.1/abc" "" "OpenAlex" none none none

def dedupKeyWitC : Record :=
  Record.mk "c" "A Randomized Trial of Therapy" [] "" (some 2020) [] .other
    "" "" "PubMed" none none none

def dedupKeyWitD : Record :=
  Record.mk "d" "a randomized trial of therapy!" [] "" (some 2020) [] .other
    "" "" "CiNii" none none none

/-- Witness for C3: the DOI clause applied to records whose DOIs differ only
in case, and the title clause applied to records with equal long normalized
titles and equal years. -/
theorem dedupKey_amended_witness :
    (dedupKeyWitA.doi ≠ "" ∧ dedupKeyWitB.doi ≠ "" ∧
      lowerStr dedupKeyWitA.doi = lowerStr dedupKeyWitB.doi ∧
      dedupKey dedupKeyWitA = dedupKey dedupKeyWitB) ∧
    (dedupKeyWitC.doi = "" ∧ dedupKeyWitD.doi = "" ∧
      normalizeTitle dedupKeyWitC.title = normalizeTitle dedupKeyWitD.title ∧
      10 < (normalizeTitle dedupKeyWitC.title).length ∧
      dedupKeyWitC.year = dedupKeyWitD.year ∧
      dedupKey dedupKeyWitC = dedupKey dedupKeyWitD) :=
  ⟨⟨by decide, by decide, by decide,
      dedupKey_deterministic_amended.2.1 dedupKeyWitA dedupKeyWitB
        (by decide) (by decide) (by decide)⟩,
    ⟨by decide, by decide, by decide, by decide, by decide,
      dedupKey_deterministic_amended.2.2 dedupKeyWitC dedupKeyWitD
        (by decide) (by decide) (by decide) (by decide) (by decide)⟩⟩

/-! ## Synonym-expansion lemmas -/

theorem mem_setAdd {l : List String} {x y : String} :
    x ∈ setAdd l y ↔ x ∈ l ∨ x = y := by
  unfold setAdd
  split
  · rename_i hy
    constructor
    · exact Or.inl
    · rintro (h | rfl)
      · exact h
      · exact hy
  · simp

theorem mem_foldl_setAdd (l : List String) :
    ∀ (acc : List String) (x : String),
      x ∈ l.foldl setAdd acc ↔ x ∈ acc ∨ x ∈ l := by
  induction l with
  | nil => intro acc x; simp
  | cons y l ih =>
    intro acc x
    rw [List.foldl_cons, ih, mem_setAdd, List.mem_cons]
    tauto

theorem nodup_setAdd {l : List String} {y : String} (h : l.Nodup) :
    (setAdd l y).Nodup := by
  unfold setAdd
  split
  · exact h
  · rename_i hy
    simp [List.nodup_append, h, hy]

theorem nodup_foldl_setAdd (l : List String) :
    ∀ acc : List String, acc.Nodup → (l.foldl setAdd acc).Nodup := by
  induction l with
  | nil => intro acc h; simpa using h
  | cons y l ih => intro acc h; exact ih _ (nodup_setAdd h)

theorem mem_jsSetOf {l : List String} {x : String} : x ∈ jsSetOf l ↔ x ∈ l := by
  unfold jsSetOf
  rw [mem_foldl_setAdd]
  simp

theorem nodup_jsSetOf (l : List String) : (jsSetOf l).Nodup :=
  nodup_foldl_setAdd l [] List.nodup_nil

theorem mem_expandStep {acc : List String} {term x : String} :
    x ∈ expandStep acc term ↔ x ∈ acc ∨ x ∈ synClassOf term := by
  unfold expandStep synClassOf
  cases h : getSyn SYN_MAP (lowerStr term) with
  | none => simp
  | some syns => simp [mem_foldl_setAdd]

theorem nodup_expandStep {acc : List String} {term : String} (h : acc.Nodup) :
    (expandStep acc term).Nodup := by
  unfold expandStep
  cases getSyn SYN_MAP (lowerStr term) with
  | none => exact h
  | some syns => exact nodup_foldl_setAdd syns acc h

theorem mem_foldl_expandStep (ts : List String) :
    ∀ (acc : List String) (x : String),
      x ∈ ts.foldl expandStep acc ↔ x ∈ acc ∨ ∃ t ∈ ts, x ∈ synClassOf t := by
  induction ts with
  | nil => intro acc x; simp
  | cons t ts ih =>
    intro acc x
    rw [List.foldl_cons, ih, mem_expandStep]
    constructor
    · rintro ((h | h) | ⟨u, hu, hx⟩)
      · exact Or.inl h
      · exact Or.inr ⟨t, List.mem_cons_self t ts, h⟩
      · exact Or.inr ⟨u, List.mem_cons_of_mem t hu, hx⟩
    · rintro (h | ⟨u, hu, hx⟩)
      · exact Or.inl (Or.inl h)
      · rcases List.mem_cons.mp hu with rfl | hu
        · exact Or.inl (Or.inr hx)
        · exact Or.inr ⟨u, hu, hx⟩

theorem nodup_foldl_expandStep (ts : List String) :
    ∀ acc : List String, acc.Nodup → (ts.foldl expandStep acc).Nodup := by
  induction ts with
  | nil => intro acc h; simpa using h
  | cons t ts ih => intro acc h; exact ih _ (nodup_expandStep h)

/-! ## The synonym map contains every class member under every member's key -/

/-- The class stored under key `k` (empty when absent). -/
def lookupClass (m : List (String × List String)) (k : String) : List String :=
  (getSyn m k).getD []

theorem lookupClass_cons_self (a : String) (b : List String)
    (X : List (String × List String)) (k : String) (h : a = k) :
    lookupClass ((a, b) :: X) k = b := by
  simp [lookupClass, getSyn, h]

theorem lookupClass_cons_ne (a : String) (b : List String)
    (X : List (String × List String)) (k : String) (h : ¬ a = k) :
    lookupClass ((a, b) :: X) k = lookupClass X k := by
  simp [lookupClass, getSyn, h]

theorem lookupClass_addAllToKey (key : String) (vs : List String) :
    ∀ (m : List (String × List String)) (k : String),
      lookupClass (addAllToKey m key vs) k =
        if key = k then vs.foldl setAdd (lookupClass m k)
        else lookupClass m k := by
  intro m
  induction m with
  | nil =>
    intro k
    show lookupClass [(key, vs.foldl setAdd [])] k = _
    by_cases hk : key = k
    · rw [lookupClass_cons_self key _ [] k hk, if_pos hk]
      rfl
    · rw [lookupClass_cons_ne key _ [] k hk, if_neg hk]
  | cons e rest ih =>
    intro k
    obtain ⟨a, b⟩ := e
    by_cases hak : a = key
    · subst hak
      rw [show addAllToKey ((a, b) :: rest) a vs
            = (a, vs.foldl setAdd b) :: rest from by simp [addAllToKey]]
      by_cases hk : a = k
      · rw [lookupClass_cons_self a _ rest k hk, if_pos hk,
          lookupClass_cons_self a b rest k hk]
      · rw [lookupClass_cons_ne a _ rest k hk, if_neg hk,
          lookupClass_cons_ne a b rest k hk]
    · rw [show addAllToKey ((a, b) :: rest) key vs
            = (a, b) :: addAllToKey rest key vs from by simp [addAllToKey, hak]]
      by_cases hk : a = k
      · have hkk : ¬ key = k := fun h => hak (hk.trans h.symm)
        rw [lookupClass_cons_self a b (addAllToKey rest key vs) k hk, if_neg hkk,
          lookupClass_cons_self a b rest k hk]
      · rw [lookupClass_cons_ne a b (addAllToKey rest key vs) k hk,
          lookupClass_cons_ne a b rest k hk, ih k]

theorem lookupClass_addAllToKey_mono (key : String) (vs : List String)
    (m : List (String × List String)) (k : String) (x : String)
    (h : x ∈ lookupClass m k) : x ∈ lookupClass (addAllToKey m key vs) k := by
  rw [lookupClass_addAllToKey]
  split
  · exact (mem_foldl_setAdd vs _ x).mpr (Or.inl h)
  · exact h

theorem lookupClass_addAllToKey_self (key : String) (vs : List String)
    (m : List (String × List String)) (x : String) (hx : x ∈ vs) :
    x ∈ lookupClass (addAllToKey m key vs) key := by
  rw [lookupClass_addAllToKey, if_pos rfl]
  exact (mem_foldl_setAdd vs _ x).mpr (Or.inr hx)

theorem lookupClass_foldKeys_mono (vs : List String) :
    ∀ (ks : List String) (m : List (String × List String)) (k x : String),
      x ∈ lookupClass m k →
      x ∈ lookupClass (ks.foldl (fun acc k2 => addAllToKey acc k2 vs) m) k := by
  intro ks
  induction ks with
  | nil => intro m k x h; simpa using h
  | cons k0 ks ih =>
    intro m k x h
    exact ih _ k x (lookupClass_addAllToKey_mono k0 vs m k x h)

theorem lookupClass_foldKeys_self (vs : List String) :
    ∀ (ks : List String) (m : List (String × List String)) (k x : String),
      k ∈ ks → x ∈ vs →
      x ∈ lookupClass (ks.foldl (fun acc k2 => addAllToKey acc k2 vs) m) k := by
  intro ks
  induction ks with
  | nil => intro m k x hk _; simp at hk
  | cons k0 ks ih =>
    intro m k x hk hx
    rcases List.mem_cons.mp hk with rfl | hk
    · exact lookupClass_foldKeys_mono vs ks _ k x
        (lookupClass_addAllToKey_self k vs m x hx)
    · exact ih _ k x hk hx

theorem lookupClass_addGroup_mono (g : List String)
    (m : List (String × List String)) (k x : String)
    (h : x ∈ lookupClass m k) : x ∈ lookupClass (addGroup m g) k :=
  lookupClass_foldKeys_mono g (g.map lowerStr) m k x h

theorem lookupClass_addGroup_self (g : List String)
    (m : List (String × List String)) {t u : String}
    (ht : t ∈ g) (hu : u ∈ g) : u ∈ lookupClass (addGroup m g) (lowerStr t) :=
  lookupClass_foldKeys_self g (g.map lowerStr) m (lowerStr t) u
    (List.mem_map_of_mem lowerStr ht) hu

theorem lookupClass_foldGroups_mono :
    ∀ (gs : List (List String)) (m : List (String × List String)) (k x : String),
      x ∈ lookupClass m k → x ∈ lookupClass (gs.foldl addGroup m) k := by
  intro gs
  induction gs with
  | nil => intro m k x h; simpa using h
  | cons g gs ih =>
    intro m k x h
    exact ih _ k x (lookupClass_addGroup_mono g m k x h)

/-- Every member of a `SYNONYMS` group is stored under every member's
lowercased key in `SYN_MAP`. -/
theorem synMap_class_complete {g : List String} (hg : g ∈ SYNONYMS)
    {t u : String} (ht : t ∈ g) (hu : u ∈ g) : u ∈ synClassOf t := by
  obtain ⟨pre, post, hsplit⟩ := List.append_of_mem hg
  have hfold : SYN_MAP = post.foldl addGroup (addGroup (pre.foldl addGroup []) g) := by
    rw [SYN_MAP, hsplit, List.foldl_append, List.foldl_cons]
  show u ∈ lookupClass SYN_MAP (lowerStr t)
  rw [hfold]
  exact lookupClass_foldGroups_mono post _ _ u
    (lookupClass_addGroup_self g _ ht hu)

/-- C6 (amended): `expandSynonyms` returns exactly the set union of the
input terms and the synonym-class members of each input term; duplicates are
removed by exact string identity (the returned list holds no term twice, but
two terms differing only in case may both appear); expansion is reflexive
and symmetric on classes.  (The claim's "duplicates removed by lowercased
identity" is refuted by `expandSynonyms_cex`.) -/
theorem expandSynonyms_amended :
    (∀ (terms : List String) (x : String),
      x ∈ expandSynonyms terms ↔ x ∈ terms ∨ ∃ t ∈ terms, x ∈ synClassOf t) ∧
    (∀ terms : List String, (expandSynonyms terms).Nodup) ∧
    (∀ (terms : List String) (t : String), t ∈ terms →
      t ∈ expandSynonyms terms) ∧
    (∀ g ∈ SYNONYMS, ∀ t ∈ g, ∀ u ∈ g, u ∈ expandSynonyms [t]) := by
  have hmem : ∀ (terms : List String) (x : String),
      x ∈ expandSynonyms terms ↔ x ∈ terms ∨ ∃ t ∈ terms, x ∈ synClassOf t := by
    intro terms x
    unfold expandSynonyms
    rw [mem_foldl_expandStep, mem_jsSetOf]
  refine ⟨hmem, ?_, ?_, ?_⟩
  · intro terms
    exact nodup_foldl_expandStep terms _ (nodup_jsSetOf terms)
  · intro terms t ht
    exact (hmem terms t).mpr (Or.inl ht)
  · intro g hg t ht u hu
    exact (hmem [t] u).mpr
      (Or.inr ⟨t, List.mem_singleton_self t, synMap_class_complete hg ht hu⟩)

/-- Counterexample to C6 as stated: the expansion of `["PT", "pt"]` keeps
both `"PT"` and `"pt"`, two distinct returned terms that are equal after
lowercasing — the JS `Set` deduplicates by exact identity, not by
lowercased identity. -/
theorem expandSynonyms_cex :
    "PT" ∈ expandSynonyms ["PT", "pt"] ∧ "pt" ∈ expandSynonyms ["PT", "pt"] ∧
      ("PT" : String) ≠ "pt" ∧ lowerStr "PT" = lowerStr "pt" := by
  decide

/-- Witness for C6: リハ and rehabilitation are in the same synonym group,
and expanding リハ indeed yields rehabilitation. -/
theorem expandSynonyms_amended_witness :
    (["リハ", "リハビリ", "リハビリテーション", "rehabilitation"] ∈ SYNONYMS) ∧
      "rehabilitation" ∈ expandSynonyms ["リハ"] :=
  ⟨by decide,
    expandSynonyms_amended.2.2.2 ["リハ", "リハビリ", "リハビリテーション", "rehabilitation"]
      (by decide) "リハ" (by decide) "rehabilitation" (by decide)⟩

/-! ## Reconciler lemmas: evidence rank of merged records -/

def foldMin (init : Nat) (l : List Record) : Nat :=
  l.foldl (fun m r => min m (evRank r.evidenceLevel)) init

theorem foldMin_cons (init : Nat) (r : Record) (l : List Record) :
    foldMin init (r :: l) = foldMin (min init (evRank r.evidenceLevel)) l := rfl

theorem evRank_le_seven (l : EvidenceLevel) : evRank l ≤ 7 := by
  cases l <;> simp [evRank]

theorem mergeInto_evRank (e n : Record) :
    evRank (mergeInto e n).evidenceLevel =
      min (evRank e.evidenceLevel) (evRank n.evidenceLevel) := by
  show evRank (bestEvidence e.evidenceLevel n.evidenceLevel) = _
  unfold bestEvidence
  split
  · rename_i h
    exact (Nat.min_eq_left h).symm
  · rename_i h
    exact (Nat.min_eq_right (Nat.le_of_not_le h)).symm

theorem foldMin_le_init (l : List Record) : ∀ init, foldMin init l ≤ init := by
  induction l with
  | nil => intro init; exact Nat.le_refl _
  | cons r l ih =>
    intro init
    exact Nat.le_trans (ih _) (Nat.min_le_left _ _)

theorem foldMin_le_mem (l : List Record) :
    ∀ init, ∀ r ∈ l, foldMin init l ≤ evRank r.evidenceLevel := by
  induction l with
  | nil => intro init r hr; simp at hr
  | cons s l ih =>
    intro init r hr
    rcases List.mem_cons.mp hr with rfl | hr
    · exact Nat.le_trans (foldMin_le_init l _) (Nat.min_le_right _ _)
    · exact ih _ r hr

theorem foldMin_attained (l : List Record) :
    ∀ init, foldMin init l = init ∨
      ∃ r ∈ l, foldMin init l = evRank r.evidenceLevel := by
  induction l with
  | nil => intro init; exact Or.inl rfl
  | cons s l ih =>
    intro init
    rcases ih (min init (evRank s.evidenceLevel)) with h | ⟨r, hr, h⟩
    · rcases Nat.le_total init (evRank s.evidenceLevel) with hle | hle
      · exact Or.inl (by rw [foldMin_cons, h, Nat.min_eq_left hle])
      · exact Or.inr ⟨s, List.mem_cons_self s l,
          by rw [foldMin_cons, h, Nat.min_eq_right hle]⟩
    · exact Or.inr ⟨r, List.mem_cons_of_mem s hr, by rw [foldMin_cons, h]⟩

theorem hasEntry_false_notmem {m : List (String × Record)} {k : String}
    (h : hasEntry m k = false) : ∀ rec : Record, (k, rec) ∉ m := by
  intro rec hmem
  simp only [hasEntry, List.any_eq_false] at h
  simpa using h (k, rec) hmem

theorem hasEntry_updateEntry :
    ∀ (m : List (String × Record)) (key : String) (r : Record) (k : String),
      hasEntry (updateEntry m key r) k = hasEntry m k := by
  intro m
  induction m with
  | nil => intro key r k; rfl
  | cons e rest ih =>
    intro key r k
    rw [updateEntry]
    by_cases h : e.1 = key
    · rw [if_pos h]
      show (e.1 == k || hasEntry (updateEntry rest key r) k)
        = (e.1 == k || hasEntry rest k)
      rw [ih key r k]
    · rw [if_neg h]
      show (e.1 == k || hasEntry (updateEntry rest key r) k)
        = (e.1 == k || hasEntry rest k)
      rw [ih key r k]

theorem hasEntry_append_single (m : List (String × Record)) (key : String)
    (r : Record) (k : String) :
    hasEntry (m ++ [(key, r)]) k = (hasEntry m k || (key == k)) := by
  simp [hasEntry, List.any_append]

theorem mem_updateEntry {m : List (String × Record)} {key : String}
    {r : Record} {k : String} {x : Record} (h : (k, x) ∈ updateEntry m key r) :
    (k = key ∧ ∃ y : Record, (k, y) ∈ m ∧ x = mergeInto y r) ∨
      (¬ k = key ∧ (k, x) ∈ m) := by
  induction m with
  | nil => simp [updateEntry] at h
  | cons e rest ih =>
    rw [updateEntry] at h
    rcases List.mem_cons.mp h with heq | htail
    · by_cases he : e.1 = key
      · rw [if_pos he] at heq
        injection heq with h1 h2
        exact Or.inl ⟨h1.trans he, e.2,
          by rw [h1]; simp, h2⟩
      · rw [if_neg he] at heq
        subst heq
        exact Or.inr ⟨he, List.mem_cons_self _ rest⟩
    · rcases ih htail with ⟨h1, y, hy, h2⟩ | ⟨h1, h2⟩
      · exact Or.inl ⟨h1, y, List.mem_cons_of_mem e hy, h2⟩
      · exact Or.inr ⟨h1, List.mem_cons_of_mem e h2⟩

theorem colliders_cons_eq {r : Record} {rest : List Record} {k : String}
    (h : dedupKey r = k) : colliders k (r :: rest) = r :: colliders k rest := by
  simp [colliders, List.filter_cons, h]

theorem colliders_cons_ne {r : Record} {rest : List Record} {k : String}
    (h : ¬ dedupKey r = k) : colliders k (r :: rest) = colliders k rest := by
  simp [colliders, List.filter_cons, h]

/-- The dedup loop invariant: a stored record's rank extends either an
initial entry's rank or starts fresh at the first collider, folded with
`min` over all later colliders. -/
theorem dedupFold_aux :
    ∀ (inputs : List Record) (st : List (String × Record) × SourceCounts)
      (k : String) (rec : Record),
      (k, rec) ∈ (inputs.foldl dedupStep st).1 →
      (∃ rec0 : Record, (k, rec0) ∈ st.1 ∧
        evRank rec.evidenceLevel =
          foldMin (evRank rec0.evidenceLevel) (colliders k inputs)) ∨
      (hasEntry st.1 k = false ∧ colliders k inputs ≠ [] ∧
        evRank rec.evidenceLevel = foldMin 7 (colliders k inputs)) := by
  intro inputs
  induction inputs with
  | nil =>
    intro st k rec h
    exact Or.inl ⟨rec, h, rfl⟩
  | cons r rest ih =>
    intro st k rec h
    rw [List.foldl_cons] at h
    by_cases hhas : hasEntry st.1 (dedupKey r) = true
    · -- merge branch: the stepped state is (updateEntry st.1 (dedupKey r) r, st.2)
      have hstep : dedupStep st r = (updateEntry st.1 (dedupKey r) r, st.2) := by
        simp only [dedupStep, if_pos hhas]
      rw [hstep] at h
      rcases ih _ k rec h with ⟨rec0, hmem, hmin⟩ | ⟨hnk, hne, hmin⟩
      · rcases mem_updateEntry hmem with ⟨hk, y, hy, hrec0⟩ | ⟨hk, hmem2⟩
        · -- rec0 is the merge of an initial entry with r; k is r's key
          have hkey : dedupKey r = k := hk.symm
          refine Or.inl ⟨y, hy, ?_⟩
          rw [colliders_cons_eq hkey, foldMin_cons, hmin, hrec0,
            mergeInto_evRank]
        · -- k is not r's key: the entry and the colliders are untouched
          have hkey : ¬ dedupKey r = k := fun hc => hk hc.symm
          refine Or.inl ⟨rec0, hmem2, ?_⟩
          rw [colliders_cons_ne hkey, hmin]
      · -- the stepped state has no entry at k, so k is not r's key
        rw [hasEntry_updateEntry] at hnk
        have hkey : ¬ dedupKey r = k := by
          intro hc
          rw [hc] at hhas
          rw [hnk] at hhas
          exact Bool.false_ne_true hhas
        refine Or.inr ⟨hnk, ?_, ?_⟩
        · rw [colliders_cons_ne hkey]; exact hne
        · rw [colliders_cons_ne hkey]; exact hmin
    · -- insert branch
      have hstep : dedupStep st r =
          (st.1 ++ [(dedupKey r, { r with foundIn := some [r.source] })],
            bumpSource st.2 r.source) := by
        simp only [dedupStep, if_neg hhas]
      rw [hstep] at h
      have hhasF : hasEntry st.1 (dedupKey r) = false :=
        Bool.eq_false_iff.mpr hhas
      rcases ih _ k rec h with ⟨rec0, hmem, hmin⟩ | ⟨hnk, hne, hmin⟩
      · rcases List.mem_append.mp hmem with hmem2 | hpair
        · -- rec0 was an initial entry; k cannot be r's key
          have hkey : ¬ dedupKey r = k := by
            intro hc
            exact hasEntry_false_notmem (hc ▸ hhasF) rec0 hmem2
          refine Or.inl ⟨rec0, hmem2, ?_⟩
          rw [colliders_cons_ne hkey, hmin]
        · -- rec0 is the freshly inserted record for r
          have hp := List.mem_singleton.mp hpair
          injection hp with h1 h2
          have hkey : dedupKey r = k := h1.symm
          refine Or.inr ⟨hkey ▸ hhasF, ?_, ?_⟩
          · rw [colliders_cons_eq hkey]
            exact List.cons_ne_nil r _
          · have hrk : evRank rec0.evidenceLevel = evRank r.evidenceLevel := by
              rw [h2]
            rw [colliders_cons_eq hkey, foldMin_cons,
              Nat.min_eq_right (evRank_le_seven _), hmin, hrk]
      · -- the stepped state has no entry at k: in particular k is not r's key
        rw [hasEntry_append_single] at hnk
        have hors := Bool.or_eq_false_iff.mp hnk
        have hkey : ¬ dedupKey r = k := by
          intro hc
          have := hors.2
          rw [hc] at this
          simp at this
        refine Or.inr ⟨hors.1, ?_, ?_⟩
        · rw [colliders_cons_ne hkey]; exact hne
        · rw [colliders_cons_ne hkey]; exact hmin

/-- C1: every record returned by `deduplicateAndMerge` has an evidence level
whose EV_RANK equals the minimum EV_RANK over the pre-merge input records
that collided on the dedup key under which the record is stored: the rank is
at most every collider's rank, and is attained by some collider. -/
theorem dedup_evidence_min :
    ∀ (inputs : List Record) (rec : Record),
      rec ∈ (deduplicateAndMerge inputs).1 →
      ∃ k : String, (k, rec) ∈ (dedupFold inputs).1 ∧
        (∀ r ∈ colliders k inputs,
          evRank rec.evidenceLevel ≤ evRank r.evidenceLevel) ∧
        (∃ r ∈ colliders k inputs,
          evRank rec.evidenceLevel = evRank r.evidenceLevel) := by
  intro inputs rec hrec
  obtain ⟨e, he, hrec2⟩ := List.mem_map.mp hrec
  obtain ⟨k0, rec0⟩ := e
  subst hrec2
  have hpair : (k0, rec0) ∈ (dedupFold inputs).1 := he
  rcases dedupFold_aux inputs ([], zeroCounts) k0 rec0 hpair with
    ⟨y, hy, _⟩ | ⟨_, hne, hmin⟩
  · simp at hy
  · refine ⟨k0, hpair, ?_, ?_⟩
    · intro r hr
      rw [hmin]
      exact foldMin_le_mem _ 7 r hr
    · rcases foldMin_attained (colliders k0 inputs) 7 with h7 | ⟨r, hr, hfr⟩
      · obtain ⟨r, hr⟩ := List.exists_mem_of_ne_nil _ hne
        refine ⟨r, hr, ?_⟩
        have hle : foldMin 7 (colliders k0 inputs) ≤ evRank r.evidenceLevel :=
          foldMin_le_mem _ 7 r hr
        have hge : evRank r.evidenceLevel ≤ 7 := evRank_le_seven _
        rw [hmin, h7]
        exact Nat.le_antisymm (h7 ▸ hle) hge |>.symm ▸ rfl
      · exact ⟨r, hr, by rw [hmin, hfr]⟩

def dedupWitA : Record :=
  Record.mk "a" "" [] "" none [] .review "10.1/x" "" "PubMed" none none none

def dedupWitB : Record :=
  Record.mk "b" "" [] "" none [] .rct "10.1/x" "" "OpenAlex" none none none

def dedupWitMerged : Record :=
  mergeInto { dedupWitA with foundIn := some ["PubMed"] } dedupWitB

/-- Witness for C1: two records sharing a DOI with ranks 6 (review) and 2
(rct) merge into one stored record whose rank is the minimum. -/
theorem dedup_evidence_min_witness :
    dedupWitMerged ∈ (deduplicateAndMerge [dedupWitA, dedupWitB]).1 ∧
      ∃ k : String, (k, dedupWitMerged) ∈ (dedupFold [dedupWitA, dedupWitB]).1 ∧
        (∀ r ∈ colliders k [dedupWitA, dedupWitB],
          evRank dedupWitMerged.evidenceLevel ≤ evRank r.evidenceLevel) ∧
        (∃ r ∈ colliders k [dedupWitA, dedupWitB],
          evRank dedupWitMerged.evidenceLevel = evRank r.evidenceLevel) :=
  ⟨by decide, dedup_evidence_min [dedupWitA, dedupWitB] dedupWitMerged (by decide)⟩

/-! ## Source-count lemmas -/

theorem bumpSource_sum (c : SourceCounts) (src : String) :
    sumCounts (bumpSource c src) = sumCounts c + 1 := by
  unfold bumpSource
  repeat' split
  all_goals simp [sumCounts]
  all_goals omega

theorem length_updateEntry :
    ∀ (m : List (String × Record)) (key : String) (r : Record),
      (updateEntry m key r).length = m.length := by
  intro m
  induction m with
  | nil => intro key r; rfl
  | cons e rest ih =>
    intro key r
    rw [updateEntry]
    show (_ :: updateEntry rest key r).length = _
    simp [ih key r]

/-- The counting invariant of the dedup loop: the counts stay equal to the
number of stored entries, and they accumulate exactly one bump per
first-occupying record. -/
theorem dedupFold_counts_aux :
    ∀ (inputs : List Record) (st : List (String × Record) × SourceCounts)
      (seen : List String),
      (∀ k : String, hasEntry st.1 k = true ↔ k ∈ seen) →
      sumCounts st.2 = st.1.length →
      sumCounts (inputs.foldl dedupStep st).2
          = (inputs.foldl dedupStep st).1.length ∧
        (inputs.foldl dedupStep st).2
          = tallySources (firstOccAux seen inputs) st.2 := by
  intro inputs
  induction inputs with
  | nil =>
    intro st seen _ hsum
    exact ⟨hsum, rfl⟩
  | cons r rest ih =>
    intro st seen hkeys hsum
    rw [List.foldl_cons]
    by_cases hhas : hasEntry st.1 (dedupKey r) = true
    · have hseen : dedupKey r ∈ seen := (hkeys _).mp hhas
      have hstep : dedupStep st r = (updateEntry st.1 (dedupKey r) r, st.2) := by
        simp only [dedupStep, if_pos hhas]
      rw [hstep, firstOccAux, if_pos hseen]
      exact ih _ seen
        (fun k => by rw [hasEntry_updateEntry]; exact hkeys k)
        (by rw [length_updateEntry]; exact hsum)
    · have hseen : dedupKey r ∉ seen := fun hc => hhas ((hkeys _).mpr hc)
      have hstep : dedupStep st r =
          (st.1 ++ [(dedupKey r, { r with foundIn := some [r.source] })],
            bumpSource st.2 r.source) := by
        simp only [dedupStep, if_neg hhas]
      rw [hstep, firstOccAux, if_neg hseen]
      have hkeys2 : ∀ k : String,
          hasEntry (st.1 ++
              [(dedupKey r, { r with foundIn := some [r.source] })]) k = true
            ↔ k ∈ dedupKey r :: seen := by
        intro k
        rw [hasEntry_append_single, Bool.or_eq_true, List.mem_cons, hkeys k]
        constructor
        · rintro (h | h)
          · exact Or.inr h
          · have hk : dedupKey r = k := by simpa using h
            exact Or.inl hk.symm
        · rintro (h | h)
          · refine Or.inr ?_
            simp [h]
          · exact Or.inl h
      have hsum2 : sumCounts (bumpSource st.2 r.source)
          = (st.1 ++
              [(dedupKey r, { r with foundIn := some [r.source] })]).length := by
        rw [bumpSource_sum, List.length_append, hsum]
        simp
      have hrec := ih
        (st.1 ++ [(dedupKey r, { r with foundIn := some [r.source] })],
          bumpSource st.2 r.source)
        (dedupKey r :: seen) hkeys2 hsum2
      refine ⟨hrec.1, ?_⟩
      rw [hrec.2]
      rfl

/-- C2: the six external-source counts returned by `deduplicateAndMerge` sum
to the number of returned (deduplicated) results, and the counts are exactly
the tally, over the first record to occupy each dedup key, of that record's
source (any source string other than the five named ones is credited to the
`cinii` key, as in the source's fallback). -/
theorem dedup_source_counts :
    ∀ inputs : List Record,
      sumCounts (deduplicateAndMerge inputs).2
          = (deduplicateAndMerge inputs).1.length ∧
        (deduplicateAndMerge inputs).2
          = tallySources (firstOccupants inputs) zeroCounts := by
  intro inputs
  have h := dedupFold_counts_aux inputs ([], zeroCounts) []
    (fun k => by simp [hasEntry]) rfl
  refine ⟨?_, h.2⟩
  show sumCounts (dedupFold inputs).2
    = ((dedupFold inputs).1.map (fun e => e.2)).length
  rw [List.length_map]
  exact h.1

/-! ## Rate-limiter lemmas -/

/-- A call that finds no entry, or a stale one, passes and starts a fresh
window with count 1. -/
theorem checkRateLimit_fresh (s : RLState) (now : Nat) (ip : String)
    (h : s.table ip = none ∨
      ∃ e : RLEntry, s.table ip = some e ∧ RATE_WINDOW < now - e.start) :
    (checkRateLimit s now ip).2 = true ∧
      (checkRateLimit s now ip).1.table ip = some ⟨now, 1⟩ := by
  obtain ⟨tab, lc⟩ := s
  rcases h with hn | ⟨e, he, hst⟩
  · have hn2 : tab ip = none := hn
    by_cases hcl : RATE_WINDOW < now - lc <;>
      constructor <;>
      simp [checkRateLimit, hcl, cleanupTable, hn2, setEntry]
  · have he2 : tab ip = some e := he
    by_cases hcl : RATE_WINDOW < now - lc <;>
      constructor <;>
      simp [checkRateLimit, hcl, cleanupTable, he2, hst, setEntry]

/-- A call inside the window increments the count and passes iff the new
count stays within the limit. -/
theorem checkRateLimit_inWindow (s : RLState) (t t1 m : Nat) (ip : String)
    (htab : s.table ip = some ⟨t1, m⟩) (hIn : ¬ RATE_WINDOW < t - t1) :
    (checkRateLimit s t ip).2 = decide (m + 1 ≤ RATE_LIMIT) ∧
      (checkRateLimit s t ip).1.table ip = some ⟨t1, m + 1⟩ := by
  obtain ⟨tab, lc⟩ := s
  have htab2 : tab ip = some ⟨t1, m⟩ := htab
  constructor
  · by_cases hm : m + 1 ≤ RATE_LIMIT
    · have hm2 : ¬ RATE_LIMIT < m + 1 := by omega
      by_cases hcl : RATE_WINDOW < t - lc <;>
        simp [checkRateLimit, hcl, cleanupTable, htab2, hIn, hm, hm2]
    · have hm2 : RATE_LIMIT < m + 1 := by omega
      by_cases hcl : RATE_WINDOW < t - lc <;>
        simp [checkRateLimit, hcl, cleanupTable, htab2, hIn, hm, hm2]
  · by_cases hcl : RATE_WINDOW < t - lc <;>
      simp [checkRateLimit, hcl, cleanupTable, htab2, hIn, setEntry]

/-- Inside one window the calls after `m` earlier ones pass while the running
count stays within the limit. -/
theorem runCalls_window (ip : String) (t1 : Nat) :
    ∀ (times : List Nat) (s : RLState) (m : Nat),
      s.table ip = some ⟨t1, m⟩ →
      (∀ t ∈ times, t ≤ t1 + RATE_WINDOW) →
      runCalls s (times.map (fun t => (t, ip))) =
        (List.range times.length).map
          (fun i => decide (m + i + 1 ≤ RATE_LIMIT)) := by
  intro times
  induction times with
  | nil => intro s m _ _; rfl
  | cons t ts ih =>
    intro s m htab hbound
    have hIn : ¬ RATE_WINDOW < t - t1 := by
      have := hbound t (List.mem_cons_self t ts)
      omega
    have hstep := checkRateLimit_inWindow s t t1 m ip htab hIn
    rw [List.map_cons]
    show (checkRateLimit s t ip).2 ::
      runCalls (checkRateLimit s t ip).1 (ts.map (fun t => (t, ip))) = _
    rw [hstep.1,
      ih (checkRateLimit s t ip).1 (m + 1) hstep.2
        (fun u hu => hbound u (List.mem_cons_of_mem t hu)),
      List.length_cons, List.range_succ_eq_map, List.map_cons, List.map_map]
    congr 1
    apply List.map_congr_left
    intro i _
    simp only [Function.comp_apply]
    exact decide_eq_decide.mpr (by omega)

def noEntries : RLTable := fun _ => none

/-- C9: for every IP, (1) a sequence of calls for that IP, all within 60 s
of the first call's timestamp and starting from a state with no (or a
stale) entry for that IP, passes exactly on its first 60 calls — the 61st
call and every later one inside the window is rejected; (2) once more than
`RATE_WINDOW` has elapsed since an entry's window start (or the entry is
absent), the next call passes and starts a fresh window with count 1;
(3) a rejected call is exactly one surfaced as HTTP 429 by the fetch gate. -/
theorem rate_limit_window :
    (∀ (s : RLState) (ip : String) (times : List Nat) (t1 : Nat),
      times.head? = some t1 →
      (∀ t ∈ times, t1 ≤ t ∧ t ≤ t1 + RATE_WINDOW) →
      (s.table ip = none ∨
        ∃ e : RLEntry, s.table ip = some e ∧ RATE_WINDOW < t1 - e.start) →
      runCalls s (times.map (fun t => (t, ip))) =
        (List.range times.length).map
          (fun i => decide (i + 1 ≤ RATE_LIMIT))) ∧
    (∀ (s : RLState) (now : Nat) (ip : String),
      (s.table ip = none ∨
        ∃ e : RLEntry, s.table ip = some e ∧ RATE_WINDOW < now - e.start) →
      (checkRateLimit s now ip).2 = true ∧
        (checkRateLimit s now ip).1.table ip = some ⟨now, 1⟩) ∧
    (∀ (s : RLState) (now : Nat) (ip : String),
      (rateLimitGate s now ip).2 = some 429 ↔
        (checkRateLimit s now ip).2 = false) := by
  refine ⟨?_, checkRateLimit_fresh, ?_⟩
  · intro s ip times t1 hhead hbound hfresh
    cases times with
    | nil => simp at hhead
    | cons t0 ts =>
      have ht0 : t0 = t1 := by simpa using hhead
      subst ht0
      have hstep := checkRateLimit_fresh s t0 ip hfresh
      rw [List.map_cons]
      show (checkRateLimit s t0 ip).2 ::
        runCalls (checkRateLimit s t0 ip).1 (ts.map (fun t => (t, ip))) = _
      rw [hstep.1,
        runCalls_window ip t0 ts (checkRateLimit s t0 ip).1 1 hstep.2
          (fun u hu => (hbound u (List.mem_cons_of_mem t0 hu)).2),
        List.length_cons, List.range_succ_eq_map, List.map_cons, List.map_map]
      congr 1
      apply List.map_congr_left
      intro i _
      simp only [Function.comp_apply]
      exact decide_eq_decide.mpr (by omega)
  · intro s now ip
    cases hb : (checkRateLimit s now ip).2 <;> simp [rateLimitGate, hb]

/-- Witness for C9: from an empty table, 61 calls from one IP at time 0 pass
60 times and are rejected on the 61st. -/
theorem rate_limit_window_witness :
    (List.replicate 61 0).head? = some 0 ∧
      (∀ t ∈ List.replicate 61 0, 0 ≤ t ∧ t ≤ 0 + RATE_WINDOW) ∧
      noEntries "1.2.3.4" = none ∧
      runCalls ⟨noEntries, 0⟩
          ((List.replicate 61 0).map (fun t => (t, "1.2.3.4"))) =
        (List.range 61).map (fun i => decide (i + 1 ≤ RATE_LIMIT)) :=
  ⟨rfl, by decide, rfl, by
    have h := rate_limit_window.1 ⟨noEntries, 0⟩ "1.2.3.4"
      (List.replicate 61 0) 0 rfl (by decide) (Or.inl rfl)
    simpa using h⟩
